import Mathlib

/-!
# Verification of the openneuro-py download engine

A shallow embedding, in Lean 4, of the core of `openneuro/download.py`:
the glob-based include/exclude file filter, the per-file download state
machine (skip / resume / restart / fresh), the per-file retry loop with
its semaphore bookkeeping, the recursive directory traversal, and the
orchestration steps of `download` (revision-conflict checking and
include-pattern exhaustiveness checking).

Every definition is translated from the Python source; doc comments name
the function and the lines it embeds.
-/

namespace OpenneuroPy

/-! ## Glob matching

`download` decides whether a pattern matches a filename with
`filename.startswith(pattern) or fnmatch.fnmatch(filename, pattern)`
(`download.py` lines 706-710).  `fnmatch.fnmatch` (CPython standard
library) performs a full-string shell-style glob match: `*` matches any
(possibly empty) run of characters, `?` matches exactly one character,
`[...]` matches a character class (with `!` negation, ranges `a-b`, and
a `]` directly after the opening bracket taken literally); an opening
bracket with no closing bracket is a literal `[`.  On POSIX,
`os.path.normcase` is the identity, so no case folding happens.
-/

/-- Scan a character-class body up to the terminating `]`: returns the
class content and the remainder of the pattern, or `none` when the class
is unterminated (CPython `fnmatch.translate`: the `while j < n and
pat[j] != ']'` scan). -/
def scanClass : List Char → Option (List Char × List Char)
  | [] => none
  | c :: rest =>
    if c = ']' then some ([], rest)
    else
      match scanClass rest with
      | none => none
      | some (body, rest2) => some (c :: body, rest2)

/-- Strip a leading `!` (class negation) from a class body
(`fnmatch.translate`: `if pat[j] == '!': j = j+1`). -/
def stripNeg (l : List Char) : Bool × List Char :=
  match l with
  | [] => (false, l)
  | c :: rest => if c = '!' then (true, rest) else (false, l)

/-- A `]` directly after `[` (or after `[!`) is part of the class body,
not its terminator (`fnmatch.translate`: `if pat[j] == ']': j = j+1`). -/
def stripHeadBracket (l : List Char) : List Char × List Char :=
  match l with
  | [] => ([], l)
  | c :: rest => if c = ']' then ([']'], rest) else ([], l)

/-- Parse the part of a glob pattern that directly follows an opening
`[` (CPython `fnmatch.translate`, the `[` branch).  Returns
`(negated, classBody, remainingPattern)`, or `none` when there is no
closing bracket (then `[` is matched literally). -/
def splitClass (l : List Char) : Option (Bool × List Char × List Char) :=
  let p1 := stripNeg l
  let p2 := stripHeadBracket p1.2
  match scanClass p2.2 with
  | none => none
  | some (body, rest) => some (p1.1, p2.1 ++ body, rest)

/-- Does a character belong to a character-class body?  Ranges `a-b`
compare code points, as the regular expression produced by
`fnmatch.translate` does; a `-` that is first or last is literal. -/
def classMatch : List Char → Char → Bool
  | lo :: '-' :: hi :: rest, c =>
    (decide (lo ≤ c) && decide (c ≤ hi)) || classMatch rest c
  | x :: rest, c => (x == c) || classMatch rest c
  | [], _ => false

/-- Full-string shell-style glob match of pattern `p` against string
`s`, following the regular expression produced by `fnmatch.translate`
(matched with `re.match … \Z`, i.e. anchored at both ends).  The `fuel`
argument only bounds the recursion depth so that the function is
structurally recursive (and hence evaluates inside the kernel): every
recursive call consumes at least one character of the pattern or of the
string, so any fuel exceeding `p.length + s.length` can never run out;
`globMatch` below supplies such fuel. -/
def globMatchF : Nat → List Char → List Char → Bool
  | 0, _, _ => false
  | fuel + 1, p, s =>
    match p, s with
    | [], s => s.isEmpty
    | '*' :: ps, s =>
      globMatchF fuel ps s ||
        (match s with
         | [] => false
         | _ :: s2 => globMatchF fuel ('*' :: ps) s2)
    | '?' :: ps, s =>
      (match s with
       | [] => false
       | _ :: s2 => globMatchF fuel ps s2)
    | '[' :: ps, s =>
      (match splitClass ps with
       | some (neg, body, rest) =>
         (match s with
          | [] => false
          | c :: s2 => (classMatch body c != neg) && globMatchF fuel rest s2)
       | none =>
         (match s with
          | [] => false
          | c :: s2 => (c == '[') && globMatchF fuel ps s2))
    | pc :: ps, s =>
      (match s with
       | [] => false
       | c :: s2 => (pc == c) && globMatchF fuel ps s2)

/-- Glob match with always-sufficient fuel. -/
def globMatch (p s : List Char) : Bool :=
  globMatchF (p.length + s.length + 1) p s

/-- Embedding of `fnmatch.fnmatch(name, pat)` on a POSIX system (where
`os.path.normcase` is the identity). -/
def fnmatch (name pat : String) : Bool := globMatch pat.toList name.toList

/-- The per-pattern match rule of `download` (`download.py` lines
706-710): a pattern matches a filename when the filename starts with the
pattern string, or matches it as a shell-style glob. -/
def patternMatches (pat filename : String) : Bool :=
  List.isPrefixOf pat.toList filename.toList || fnmatch filename pat

example : fnmatch "README" "READ*" = true := by decide
example : fnmatch "README" "READM?" = true := by decide
example : fnmatch "README" "READ?" = false := by decide
example : fnmatch "sub-01/anat/a.nii" "*.nii" = true := by decide
example : fnmatch "a" "[!b]" = true := by decide
example : fnmatch "b" "[!b]" = false := by decide
example : fnmatch "c" "[a-z]" = true := by decide
example : fnmatch "C" "[a-z]" = false := by decide
example : fnmatch "[" "[" = true := by decide
example : patternMatches "sub-01/anat" "sub-01/anat/a.nii" = true := by decide
example : patternMatches "sub-02" "sub-01/anat/a.nii" = false := by decide

/-! ## Per-file selection

The body of the `for file in tqdm(_iterate_filenames(...))` loop of
`download` (`download.py` lines 682-715): essential BIDS files are
always appended to `files`; any other file is appended when
`(not include or any(matches_keep)) and not any(matches_remove)`;
`include_counts` records, per include pattern, how often it was credited
with a match.
-/

/-- The essential BIDS filenames (`download.py` lines 695-699). -/
def essential_files : List String :=
  ["dataset_description.json", "participants.tsv", "participants.json",
   "README", "CHANGES"]

/-- Increment slot `i` of a counter list, as in
`include_counts[i] += 1` (`download.py` lines 703 and 715). -/
def bumpAt : List Nat → Nat → List Nat
  | [], _ => []
  | n :: rest, 0 => (n + 1) :: rest
  | n :: rest, i + 1 => n :: bumpAt rest i

/-- The mutable state of the selection loop: the kept `files` (by their
filename) and the per-include-pattern match counters. -/
structure SelectionState where
  files : List String
  include_counts : List Nat
  deriving Repr, DecidableEq

/-- One iteration of the selection loop of `download` (`download.py`
lines 691-715), processing a single `filename` yielded by the
traversal. -/
def processFile (inc exc : List String) (st : SelectionState)
    (filename : String) : SelectionState :=
  if essential_files.contains filename then
    { files := st.files ++ [filename]
      include_counts :=
        if inc.contains filename then
          bumpAt st.include_counts (inc.indexOf filename)
        else st.include_counts }
  else
    let matches_keep := inc.map (fun i => patternMatches i filename)
    let matches_remove := exc.map (fun e => patternMatches e filename)
    if (inc.isEmpty || matches_keep.any id) && !(matches_remove.any id) then
      { files := st.files ++ [filename]
        include_counts :=
          if matches_keep.any id then
            bumpAt st.include_counts (matches_keep.indexOf true)
          else st.include_counts }
    else st

/-- The whole selection loop of `download`, run over the filenames
yielded by the directory traversal, starting from `files = []` and
`include_counts = [0] * len(include)` (`download.py` lines 676-715). -/
def selectFiles (inc exc : List String) (filenames : List String) :
    SelectionState :=
  filenames.foldl (processFile inc exc)
    ⟨[], List.replicate inc.length 0⟩

/-- The post-selection include check of `download` (`download.py` lines
717-735): when `include` is non-empty, the first include pattern whose
counter is zero aborts the run with an error naming the pattern,
together with close-match suggestions computed by
`difflib.get_close_matches` from all encountered filenames.  The
standard-library suggestion function is abstracted as the
`closeMatches` parameter. -/
def includeCheck (closeMatches : String → List String → List String)
    (inc : List String) (counts : List Nat) (filenames : List String) :
    Option (String × List String) :=
  if inc.isEmpty then none
  else
    match (inc.zip counts).find? (fun p => p.2 == 0) with
    | none => none
    | some (pat, _) => some (pat, closeMatches pat filenames)

example :
    (selectFiles ["sub-01/anat"] []
      ["README", "CHANGES", "dataset_description.json",
       "sub-01/anat/a.nii.gz", "sub-01/anat/b.nii.gz",
       "sub-02/anat/c.nii.gz"]).files =
    ["README", "CHANGES", "dataset_description.json",
     "sub-01/anat/a.nii.gz", "sub-01/anat/b.nii.gz"] := by decide

example :
    (selectFiles ["sub-01/anat"] []
      ["README", "sub-01/anat/a.nii.gz"]).include_counts = [1] := by decide

/-! ## The per-file download state machine

`_download_file` (`download.py` lines 216-365) first issues a HEAD
request (inside the semaphore) to learn the remote file hash (S3 etag,
when it is a 32-character MD5) and the remote size (`Content-Length`,
when present), then decides between skip / hash-mismatch restart /
resume / size-mismatch restart / fresh download (lines 278-323).  The
decision is a pure function of the local file state and the HEAD
results; we embed it as `planDownload`.
-/

/-- File open mode: `wb` truncating write versus `ab` append
(`download.py` lines 293, 313, 317, 323). -/
inductive WriteMode
  | wb
  | ab
  deriving Repr, DecidableEq

/-- What `_download_file` decides to do before issuing the streaming GET
request: the open mode, the optional `Range: bytes={n}-` header, whether
the local file is deleted first (`outfile.unlink()`), and the
`local_file_size` value handed to `_retrieve_and_write_to_disk`. -/
structure TransferPlan where
  mode : WriteMode
  rangeStart : Option Nat
  deleteFirst : Bool
  localSizeAtWrite : Nat
  deriving Repr, DecidableEq

/-- The skip / restart / resume / fresh decision of `_download_file`
(`download.py` lines 278-323).  Arguments: whether `outfile.exists()`,
its `stat().st_size`, the `Content-Length` reported by the HEAD request
(`none` when the header is missing), the `verify_hash` flag, the remote
MD5 from the etag (`none` when missing or not an MD5), and the MD5 of
the current local file content.  Returns `none` when the file is
skipped (the function returns before any GET request is made), and the
transfer plan otherwise. -/
def planDownload (fileExists : Bool) (localSize : Nat)
    (remote_file_size : Option Nat) (verify_hash : Bool)
    (remote_file_hash : Option String) (localHash : String) :
    Option TransferPlan :=
  let local_file_size := if fileExists then localSize else 0
  if fileExists && (remote_file_size == some local_file_size) then
    -- lines 278-306: sizes agree; verify the hash or skip.
    if verify_hash && remote_file_hash.isSome
        && !(remote_file_hash == some localHash) then
      some ⟨.wb, none, true, 0⟩
    else
      none
  else if fileExists
      && (match remote_file_size with
          | some r => decide (local_file_size < r)
          | none => false) then
    -- lines 307-313: local file smaller than remote; resume.
    some ⟨.ab, some local_file_size, false, local_file_size⟩
  else if fileExists then
    -- lines 314-319: local file larger than remote, or remote size
    -- unknown; delete and re-download.
    some ⟨.wb, none, true, 0⟩
  else
    -- lines 320-323: no local file; fresh download.
    some ⟨.wb, none, false, 0⟩

/-- Embedding of `_retrieve_and_write_to_disk` (`download.py` lines
397-451), reduced to its effect on the file content: with mode `ab` the
received bytes are appended to the existing content, with mode `wb`
they replace it.  (Bytes are modelled as naturals.) -/
def retrieveAndWrite (existing received : List Nat) (mode : WriteMode) :
    List Nat :=
  match mode with
  | .ab => existing ++ received
  | .wb => received

/-! ## Retry control flow and semaphore bookkeeping

`_download_file` acquires the shared `asyncio.Semaphore` twice per
attempt: once around the HEAD request (`download.py` line 242) and once
around the streaming GET (line 325).  On a retryable failure it calls
`_retry_download` (lines 368-394) from *inside* the surrounding
`async with semaphore` block; `_retry_download` first sleeps for the
backoff interval, then calls `semaphore.release()`, then re-enters
`_download_file` recursively; when that recursive call returns, the
suspended `async with` block of the failed attempt exits and releases
the semaphore once more.  `downloadEvents` records this event sequence
for one file, driven by a script of per-attempt outcomes.
-/

/-- Events of one file's download relevant to the concurrency budget:
semaphore acquisitions and releases (`async with semaphore` entry/exit
and the explicit `semaphore.release()` of `_retry_download`), the HEAD
and streaming-GET requests, and the `asyncio.sleep(retry_backoff)`
backoff wait of `_retry_download`. -/
inductive SemEv
  | acquire
  | release
  | headReq
  | getReq (rangeStart : Option Nat)
  | sleep
  deriving Repr, DecidableEq

/-- How one attempt of `_download_file` turns out: the HEAD request
raises a retryable exception (line 247); the file is skipped after the
HEAD (line 306); the GET raises a retryable exception or returns a
retryable status code (lines 333, 354), carrying the `Range` header it
was sent with; or the GET succeeds (line 347). -/
inductive AttemptOutcome
  | headFail
  | skipFile
  | getFail (rangeStart : Option Nat)
  | getOk (rangeStart : Option Nat)
  deriving Repr, DecidableEq

/-- The semaphore-relevant event trace of `_download_file` run with
retry budget `max_retries` against a script of per-attempt outcomes
(`download.py` lines 216-394).  Per the source: a retryable failure
inside an `async with semaphore` block produces `sleep` (the backoff
wait happens *before* the slot is given up), then the explicit
`release`, then the whole recursive re-attempt, then one more `release`
when the suspended `async with` block of the failed attempt exits; a
failure with an exhausted budget raises, releasing the slot on exit
from the block. -/
def downloadEvents : Nat → List AttemptOutcome → List SemEv
  | _, [] => []
  | mr, .headFail :: rest =>
    [.acquire, .headReq] ++
      (if mr > 0 then
        [.sleep, .release] ++ downloadEvents (mr - 1) rest ++ [.release]
       else [.release])
  | _, .skipFile :: _ => [.acquire, .headReq, .release]
  | mr, .getFail r :: rest =>
    [.acquire, .headReq, .release, .acquire, .getReq r] ++
      (if mr > 0 then
        [.sleep, .release] ++ downloadEvents (mr - 1) rest ++ [.release]
       else [.release])
  | _, .getOk r :: _ =>
    [.acquire, .headReq, .release, .acquire, .getReq r, .release]

/-- Number of semaphore slots a trace holds at its end: acquisitions
minus releases.  Applied to a prefix of the trace, it tells how many
slots the file holds at that instant. -/
def slotsHeld (evs : List SemEv) : Int :=
  (evs.count .acquire : Int) - (evs.count .release : Int)

/-! ## Directory traversal

`_iterate_filenames` (`download.py` lines 541-577) walks the remote
tree: it passes over one directory listing, prepending the parent path
(`root`) to each entry's filename when `root` is non-empty, yielding
file entries immediately in listing order while collecting directory
entries, and then expands each collected directory in order by fetching
its children and recursing with `root` set to the directory's rewritten
path.  The remote listing service (`_get_download_metadata` keyed by
the directory's `id`) is embedded by storing each directory's children
in the tree node itself.
-/

/-- One entry of a remote directory listing: a file, or a directory
together with the listing its `id` would fetch. -/
inductive RTree
  | file (filename : String)
  | dir (filename : String) (children : List RTree)

/-- Path rewriting applied to every child of a listing (`download.py`
lines 552-553): children of the dataset root (`root = ''`) keep their
bare name, others get `root + '/' + name`. -/
def childPath (root name : String) : String :=
  if root = "" then name else root ++ "/" ++ name

/-- The file entries of one listing, in listing order, with the parent
path prepended (the `yield entity` arm, `download.py` lines 551-557). -/
def filesOf (root : String) : List RTree → List String
  | [] => []
  | .file n :: rest => childPath root n :: filesOf root rest
  | .dir _ _ :: rest => filesOf root rest

/-- The directory entries of one listing, in listing order, with the
parent path prepended, paired with their children (the `directories`
list, `download.py` lines 550-555). -/
def dirsOf (root : String) : List RTree → List (String × List RTree)
  | [] => []
  | .file _ :: rest => dirsOf root rest
  | .dir n cs :: rest => (childPath root n, cs) :: dirsOf root rest

mutual

/-- Embedding of `_iterate_filenames` (`download.py` lines 541-577):
all files of the current listing first (in listing order), then the
full expansion of each subdirectory, in listing order. -/
def iterate_filenames (root : String) (entries : List RTree) :
    List String :=
  filesOf root entries ++ expandDirs root entries
termination_by (sizeOf entries, 1)

/-- The second loop of `_iterate_filenames` (`download.py` lines
559-577): recursively expand each collected directory. -/
def expandDirs (root : String) : List RTree → List String
  | [] => []
  | .file _ :: rest => expandDirs root rest
  | .dir n cs :: rest =>
    iterate_filenames (childPath root n) cs ++ expandDirs root rest
termination_by l => (sizeOf l, 0)

end

mutual

/-- Reference predicate for the traversal theorems: the paths of all
file nodes of a tree, rooted at `root`. -/
def treeFilePaths (root : String) : RTree → List String
  | .file n => [childPath root n]
  | .dir n cs => forestFilePaths (childPath root n) cs
termination_by t => (sizeOf t, 0)

/-- Reference predicate: the paths of all file nodes of a forest. -/
def forestFilePaths (root : String) : List RTree → List String
  | [] => []
  | t :: rest => treeFilePaths root t ++ forestFilePaths root rest
termination_by l => (sizeOf l, 1)

end

/-! ## Local revision probe and orchestration

`_get_local_tag` (`download.py` lines 486-525) inspects
`dataset_description.json` in the target directory; `download`
(lines 580-764) resolves the effective tag, performs the
revision-conflict check for non-empty target directories, traverses and
filters the remote tree, verifies include-pattern exhaustiveness, and
only then schedules the transfers (which create parent directories and
write files).
-/

/-- String prefix test by characters, as Python `str.startswith`. -/
def strStartsWith (s pre : String) : Bool :=
  pre.toList.isPrefixOf s.toList

/-- Drop the first `n` characters, as Python `s[n:]`. -/
def strDrop (s : String) (n : Nat) : String :=
  ⟨s.toList.drop n⟩

/-- Left-to-right, non-overlapping removal of every occurrence of a
(non-empty) pattern, as Python `s.replace(pat, '')`.  The fuel only
bounds the recursion depth so the function is structurally recursive:
every step consumes at least one character of `s`, so fuel exceeding
`s.length` can never run out. -/
def replaceAllF : Nat → List Char → List Char → List Char
  | 0, s, _ => s
  | _ + 1, [], _ => []
  | fuel + 1, c :: rest, pat =>
    if !pat.isEmpty && pat.isPrefixOf (c :: rest) then
      replaceAllF fuel ((c :: rest).drop pat.length) pat
    else c :: replaceAllF fuel rest pat

/-- Remove every occurrence of `pat` from `s`, as Python
`s.replace(pat, '')`. -/
def strRemove (s pat : String) : String :=
  ⟨replaceAllF (s.toList.length + 1) s.toList pat.toList⟩

example : strRemove "ds000248:1.0.0" "ds000248:" = "1.0.0" := by decide
example : strRemove "10.18112/openneuro.ds000248.v1.0.1"
    "10.18112/openneuro.ds000248.v" = "1.0.1" := by decide

/-- Observable states of the local `dataset_description.json` that
`_get_local_tag` distinguishes: the file is absent
(`local_json_path.exists()` false, line 494); it reads back as the
empty string (line 498); `json.loads` raises on its contents
(line 501); or it parses to a JSON object with the given string
fields. -/
inductive ManifestFile
  | absent
  | emptyContent
  | unparseable
  | parsed (fields : List (String × String))
  deriving Repr, DecidableEq

/-- Errors `_get_local_tag` can raise: the `json.loads` failure for
unparseable content (line 501), the missing-`DatasetDOI` error
(lines 503-506), and the different-dataset error (lines 515-521). -/
inductive TagError
  | jsonParseError
  | missingDatasetDOI
  | datasetMismatch
  deriving Repr, DecidableEq

/-- The expected DOI prefix for a dataset (`download.py` line 513). -/
def doiStart (dataset_id : String) : String :=
  "10.18112/openneuro." ++ dataset_id ++ ".v"

/-- Embedding of `_get_local_tag` (`download.py` lines 486-525). -/
def get_local_tag (dataset_id : String) (manifest : ManifestFile) :
    Except TagError (Option String) :=
  match manifest with
  | .absent => .ok none
  | .emptyContent => .ok none
  | .unparseable => .error .jsonParseError
  | .parsed fields =>
    match fields.lookup "DatasetDOI" with
    | none => .error .missingDatasetDOI
    | some doi0 =>
      let local_doi :=
        if strStartsWith doi0 "doi:" then strDrop doi0 4 else doi0
      if strStartsWith local_doi (doiStart dataset_id) then
        .ok (some (strRemove local_doi (doiStart dataset_id)))
      else .error .datasetMismatch

instance : DecidableEq (Except TagError (Option String)) := fun a b =>
  match a, b with
  | .ok x, .ok y =>
    if h : x = y then isTrue (by rw [h])
    else isFalse (fun hc => h (by cases hc; rfl))
  | .error x, .error y =>
    if h : x = y then isTrue (by rw [h])
    else isFalse (fun hc => h (by cases hc; rfl))
  | .ok _, .error _ => isFalse (fun hc => by cases hc)
  | .error _, .ok _ => isFalse (fun hc => by cases hc)

example :
    get_local_tag "ds000248"
      (.parsed [("Name", "x"),
                ("DatasetDOI", "doi:10.18112/openneuro.ds000248.v1.0.1")]) =
    .ok (some "1.0.1") := by decide

/-- Steps of the `download` orchestration that touch the outside world,
in execution order: the metadata fetch (lines 648-653), the warning for
an undeterminable local revision (lines 663-667), the directory
traversal (lines 682-690), and - per scheduled file - the parent
directory creation (line 475) and the transfer itself. -/
inductive Step
  | fetch_metadata
  | warn_unknown_local_revision
  | traverse_listing
  | mkdir_parent (path : String)
  | transfer (path : String)
  deriving Repr, DecidableEq

/-- Terminal outcomes of the orchestration relevant to the claims. -/
inductive Outcome
  | completed (files : List String)
  | revision_conflict (local_tag tag : String)
  | local_state_error (e : TagError)
  | include_error (pat : String) (suggestions : List String)
  deriving Repr, DecidableEq

/-- The world `download` runs against: the dataset id, the snapshot id
returned by the metadata query (`metadata['id']`), the root listing,
and the target directory's state. -/
structure DownloadEnv where
  dataset : String
  meta_id : String
  remote_files : List RTree
  target_dir_exists : Bool
  target_dir_nonempty : Bool
  manifest : ManifestFile

/-- The effective revision tag:
`metadata['id'].replace(f'{dataset}:', '')` (`download.py` line 655). -/
def effectiveTag (env : DownloadEnv) : String :=
  strRemove env.meta_id (env.dataset ++ ":")

/-- Traversal, selection, include check and transfer scheduling: the
part of `download` below the revision-conflict check (`download.py`
lines 676-759). -/
def downloadBody (closeMatches : String → List String → List String)
    (env : DownloadEnv) (inc exc : List String) (steps0 : List Step) :
    List Step × Outcome :=
  let filenames := iterate_filenames "" env.remote_files
  let sel := selectFiles inc exc filenames
  match includeCheck closeMatches inc sel.include_counts filenames with
  | some (pat, sugg) =>
    (steps0 ++ [.traverse_listing], .include_error pat sugg)
  | none =>
    (steps0 ++ [.traverse_listing]
       ++ sel.files.flatMap (fun f => [.mkdir_parent f, .transfer f]),
     .completed sel.files)

/-- Embedding of the orchestration of `download` (`download.py` lines
580-764): resolve the effective tag, run the revision-conflict check
when the target directory exists and is non-empty (lines 656-674), then
hand over to traversal, selection and scheduling. -/
def downloadRun (closeMatches : String → List String → List String)
    (env : DownloadEnv) (inc exc : List String) : List Step × Outcome :=
  let tag := effectiveTag env
  if env.target_dir_exists && env.target_dir_nonempty then
    match get_local_tag env.dataset env.manifest with
    | .error e => ([.fetch_metadata], .local_state_error e)
    | .ok none =>
      downloadBody closeMatches env inc exc
        [.fetch_metadata, .warn_unknown_local_revision]
    | .ok (some local_tag) =>
      if local_tag ≠ tag then
        ([.fetch_metadata], .revision_conflict local_tag tag)
      else downloadBody closeMatches env inc exc [.fetch_metadata]
  else downloadBody closeMatches env inc exc [.fetch_metadata]

/-! ## Theorems -/

/-- Scanning a class consumes at least the terminating bracket. -/
theorem scanClass_length :
    ∀ (l body rest : List Char), scanClass l = some (body, rest) →
      rest.length < l.length := by
  intro l
  induction l with
  | nil => intro body rest h; simp [scanClass] at h
  | cons c cs ih =>
    intro body rest h
    simp only [scanClass] at h
    by_cases hc : c = ']'
    · rw [if_pos hc] at h
      cases h
      simp
    · rw [if_neg hc] at h
      cases hscan : scanClass cs with
      | none => rw [hscan] at h; cases h
      | some p =>
        rw [hscan] at h
        cases p with
        | mk b r =>
          cases h
          have := ih _ _ hscan
          simp only [List.length_cons]
          omega

theorem stripNeg_length (l : List Char) :
    (stripNeg l).2.length ≤ l.length := by
  cases l with
  | nil => simp [stripNeg]
  | cons c rest =>
    simp only [stripNeg]
    split <;> simp

theorem stripHeadBracket_length (l : List Char) :
    (stripHeadBracket l).2.length ≤ l.length := by
  cases l with
  | nil => simp [stripHeadBracket]
  | cons c rest =>
    simp only [stripHeadBracket]
    split <;> simp

/-- Parsing a character class consumes part of the pattern. -/
theorem splitClass_length (l : List Char) (neg : Bool)
    (body rest : List Char)
    (h : splitClass l = some (neg, body, rest)) :
    rest.length < l.length := by
  simp only [splitClass] at h
  cases hscan : scanClass (stripHeadBracket (stripNeg l).2).2 with
  | none => rw [hscan] at h; cases h
  | some p =>
    rw [hscan] at h
    cases p with
    | mk b r =>
      cases h
      have h1 := scanClass_length _ _ _ hscan
      have h2 := stripHeadBracket_length (stripNeg l).2
      have h3 := stripNeg_length l
      omega

/-- The fuel of `globMatchF` is irrelevant as long as it exceeds the
combined length of pattern and string: every recursive call consumes at
least one character of one of them.  So `globMatch` computes a
well-defined, fuel-independent function. -/
theorem globMatchF_stable :
    ∀ (f1 : Nat) (p s : List Char) (f2 : Nat),
      p.length + s.length < f1 → p.length + s.length < f2 →
      globMatchF f1 p s = globMatchF f2 p s := by
  intro f1 p s
  induction f1, p, s using globMatchF.induct with
  | case1 p s =>
    intro f2 h1 h2
    omega
  | case2 fuel s =>
    intro f2 h1 h2
    cases f2 with
    | zero => omega
    | succ g2 => simp [globMatchF]
  | case3 fuel ps s ih1 ih2 =>
    intro f2 h1 h2
    cases f2 with
    | zero => omega
    | succ g2 =>
      cases s with
      | nil =>
        simp [globMatchF, ih1 g2
          (by simp only [List.length_cons] at h1 ⊢; omega)
          (by simp only [List.length_cons] at h2 ⊢; omega)]
      | cons c s2 =>
        simp [globMatchF,
          ih1 g2 (by simp only [List.length_cons] at h1 ⊢; omega)
            (by simp only [List.length_cons] at h2 ⊢; omega),
          ih2 s2 g2 (by simp only [List.length_cons] at h1 ⊢; omega)
            (by simp only [List.length_cons] at h2 ⊢; omega)]
  | case4 fuel ps =>
    intro f2 h1 h2
    cases f2 with
    | zero => omega
    | succ g2 => simp [globMatchF]
  | case5 fuel ps c rest ih =>
    intro f2 h1 h2
    cases f2 with
    | zero => omega
    | succ g2 =>
      simp [globMatchF, ih g2
        (by simp only [List.length_cons] at h1 ⊢; omega)
        (by simp only [List.length_cons] at h2 ⊢; omega)]
  | case6 fuel ps neg body rest hsplit =>
    intro f2 h1 h2
    cases f2 with
    | zero => omega
    | succ g2 => simp [globMatchF, hsplit]
  | case7 fuel ps neg body rest hsplit c rest1 ih =>
    intro f2 h1 h2
    cases f2 with
    | zero => omega
    | succ g2 =>
      have hr := splitClass_length ps neg body rest hsplit
      simp [globMatchF, hsplit, ih g2
        (by simp only [List.length_cons] at h1 ⊢; omega)
        (by simp only [List.length_cons] at h2 ⊢; omega)]
  | case8 fuel ps hsplit =>
    intro f2 h1 h2
    cases f2 with
    | zero => omega
    | succ g2 => simp [globMatchF, hsplit]
  | case9 fuel ps hsplit c rest ih =>
    intro f2 h1 h2
    cases f2 with
    | zero => omega
    | succ g2 =>
      simp [globMatchF, hsplit, ih g2
        (by simp only [List.length_cons] at h1 ⊢; omega)
        (by simp only [List.length_cons] at h2 ⊢; omega)]
  | case10 fuel pc ps hstar hq hbr =>
    intro f2 h1 h2
    cases f2 with
    | zero => omega
    | succ g2 => simp [globMatchF, hstar, hq, hbr]
  | case11 fuel pc ps hstar hq hbr c rest ih =>
    intro f2 h1 h2
    cases f2 with
    | zero => omega
    | succ g2 =>
      simp [globMatchF, hstar, hq, hbr, ih g2
        (by simp only [List.length_cons] at h1 ⊢; omega)
        (by simp only [List.length_cons] at h2 ⊢; omega)]

/-- Adequately-fuelled runs of `globMatchF` agree with `globMatch`. -/
theorem globMatchF_eq_globMatch (f : Nat) (p s : List Char)
    (h : p.length + s.length < f) :
    globMatchF f p s = globMatch p s :=
  globMatchF_stable f p s (p.length + s.length + 1) h (by omega)

/-- The fuel of `replaceAllF` is irrelevant as long as it exceeds the
length of the scanned string: every recursive call consumes at least
one of its characters (the pattern is non-empty whenever characters are
skipped).  So `strRemove` computes a well-defined, fuel-independent
function. -/
theorem replaceAllF_stable :
    ∀ (f1 : Nat) (s pat : List Char) (f2 : Nat),
      s.length < f1 → s.length < f2 →
      replaceAllF f1 s pat = replaceAllF f2 s pat := by
  intro f1 s pat
  induction f1, s, pat using replaceAllF.induct with
  | case1 s pat =>
    intro f2 h1 h2
    omega
  | case2 fuel pat =>
    intro f2 h1 h2
    cases f2 with
    | zero => omega
    | succ g2 => simp [replaceAllF]
  | case3 fuel c rest pat hcond ih =>
    intro f2 h1 h2
    cases f2 with
    | zero => omega
    | succ g2 =>
      have hpat : 1 ≤ pat.length := by
        rcases pat with _ | ⟨p0, prest⟩
        · simp at hcond
        · simp
      rw [show replaceAllF (fuel + 1) (c :: rest) pat =
          replaceAllF fuel ((c :: rest).drop pat.length) pat from by
        simp [replaceAllF, hcond]]
      rw [show replaceAllF (g2 + 1) (c :: rest) pat =
          replaceAllF g2 ((c :: rest).drop pat.length) pat from by
        simp [replaceAllF, hcond]]
      exact ih g2
        (by simp only [List.length_drop, List.length_cons] at h1 ⊢; omega)
        (by simp only [List.length_drop, List.length_cons] at h2 ⊢; omega)
  | case4 fuel c rest pat hcond ih =>
    intro f2 h1 h2
    cases f2 with
    | zero => omega
    | succ g2 =>
      rw [show replaceAllF (fuel + 1) (c :: rest) pat =
          c :: replaceAllF fuel rest pat from by
        simp [replaceAllF, hcond]]
      rw [show replaceAllF (g2 + 1) (c :: rest) pat =
          c :: replaceAllF g2 rest pat from by
        simp [replaceAllF, hcond]]
      rw [ih g2
        (by simp only [List.length_cons] at h1; omega)
        (by simp only [List.length_cons] at h2; omega)]

/-- The Boolean keep condition of the selection loop, in propositional
form. -/
theorem keep_cond_iff (inc exc : List String) (filename : String) :
    (((inc.isEmpty ||
        (inc.map (fun i => patternMatches i filename)).any id) &&
      !((exc.map (fun e => patternMatches e filename)).any id)) = true) ↔
    ((inc = [] ∨ ∃ pat ∈ inc, patternMatches pat filename = true) ∧
      ∀ pat ∈ exc, patternMatches pat filename = false) := by
  simp [List.isEmpty_iff, List.any_map, List.any_eq_true, Function.comp]

/-- C1. For every path that is not one of the essential filenames and
every pair of pattern lists, one iteration of the selection loop keeps
the path (appends it to `files`) iff (the include list is empty OR some
include pattern matches) AND no exclude pattern matches, where a
pattern matches iff the path starts with it or matches it as a
shell-style glob; a path that is not kept leaves the selection state
untouched. -/
theorem filter_keep_iff (inc exc : List String) (st : SelectionState)
    (filename : String) (h : filename ∉ essential_files) :
    ((processFile inc exc st filename).files = st.files ++ [filename] ↔
      ((inc = [] ∨ ∃ pat ∈ inc, patternMatches pat filename = true) ∧
        ∀ pat ∈ exc, patternMatches pat filename = false)) ∧
    ((processFile inc exc st filename).files ≠ st.files ++ [filename] →
      processFile inc exc st filename = st) := by
  have hess : ¬ (essential_files.contains filename = true) := by
    simpa using h
  by_cases hk :
      ((inc.isEmpty ||
          (inc.map (fun i => patternMatches i filename)).any id) &&
        !((exc.map (fun e => patternMatches e filename)).any id)) = true
  · have hfiles : (processFile inc exc st filename).files =
        st.files ++ [filename] := by
      simp only [processFile]
      rw [if_neg hess, if_pos hk]
    refine ⟨?_, fun hcontra => absurd hfiles hcontra⟩
    rw [hfiles]
    exact iff_of_true rfl ((keep_cond_iff inc exc filename).mp hk)
  · have hres : processFile inc exc st filename = st := by
      simp only [processFile]
      rw [if_neg hess, if_neg hk]
    refine ⟨?_, fun _ => hres⟩
    rw [hres]
    refine iff_of_false ?_ ?_
    · intro hfe
      exact absurd (congrArg List.length hfe) (by simp)
    · intro hp
      exact hk ((keep_cond_iff inc exc filename).mpr hp)

/-- Witness for C1 at a concrete input: the include pattern `sub-01` is
a prefix of `sub-01/a.nii`, so the file is kept. -/
theorem filter_keep_iff_witness :
    (processFile ["sub-01"] [] ⟨[], [0]⟩ "sub-01/a.nii").files =
      [] ++ ["sub-01/a.nii"] :=
  (filter_keep_iff ["sub-01"] [] ⟨[], [0]⟩ "sub-01/a.nii"
      (by decide)).1.mpr
    (by
      refine ⟨Or.inr ⟨"sub-01", by decide, by decide⟩, ?_⟩
      intro pat hp
      cases hp)

/-- C3. When the local file exists and its size equals the
remote-reported size: with hash verification disabled, or no remote
hash available, or matching hashes, `_download_file` skips the file
(returns before any GET request, so no payload bytes are transferred);
with verification enabled, a remote hash available and differing
hashes, the local file is deleted (`deleteFirst`) and re-downloaded
from scratch (truncating mode, no byte range, write offset 0). -/
theorem size_match_skip_or_restart (localSize : Nat) (verify_hash : Bool)
    (remoteHash : Option String) (localHash : String) :
    ((verify_hash = false ∨ remoteHash = none ∨
        remoteHash = some localHash) →
      planDownload true localSize (some localSize) verify_hash remoteHash
        localHash = none) ∧
    (∀ rh, verify_hash = true → remoteHash = some rh → localHash ≠ rh →
      planDownload true localSize (some localSize) verify_hash remoteHash
        localHash = some ⟨.wb, none, true, 0⟩) := by
  constructor
  · intro hskip
    rcases hskip with hv | hn | he
    · simp [planDownload, hv]
    · simp [planDownload, hn]
    · simp [planDownload, he]
  · intro rh hv hrh hne
    simp [planDownload, hv, hrh]
    intro hcontra
    exact absurd hcontra.symm hne

/-- Witness for C3: both arms at concrete inputs (no remote hash, and a
mismatching remote hash). -/
theorem size_match_skip_or_restart_witness :
    planDownload true 7 (some 7) true none "aaa" = none ∧
    planDownload true 7 (some 7) true (some "bbb") "aaa" =
      some ⟨.wb, none, true, 0⟩ :=
  ⟨(size_match_skip_or_restart 7 true none "aaa").1 (Or.inr (Or.inl rfl)),
   (size_match_skip_or_restart 7 true (some "bbb") "aaa").2 "bbb" rfl rfl
     (by decide)⟩

/-- C4. When the local file exists, the remote size is known and the
local size is strictly smaller, the transfer is a resume: the GET
request carries a byte range starting exactly at the local size, the
file is opened in append mode and is not deleted; appending the
remaining bytes to the already-present prefix reconstructs the full
content, so already-present bytes are not re-transferred. -/
theorem resume_plan (localSize r : Nat) (verify_hash : Bool)
    (remoteHash : Option String) (localHash : String)
    (h : localSize < r) :
    planDownload true localSize (some r) verify_hash remoteHash
      localHash = some ⟨.ab, some localSize, false, localSize⟩ ∧
    ∀ content : List Nat,
      retrieveAndWrite (content.take localSize) (content.drop localSize)
        .ab = content := by
  constructor
  · have hne : r ≠ localSize := by omega
    simp [planDownload, hne, h]
  · intro content
    simp [retrieveAndWrite]

/-- Witness for C4: resuming a 10-byte file of which 4 bytes are
present requests the range starting at byte 4 and appends. -/
theorem resume_plan_witness :
    planDownload true 4 (some 10) true none "aaa" =
      some ⟨.ab, some 4, false, 4⟩ ∧
    retrieveAndWrite ([9, 8, 7, 6, 5, 4, 3, 2, 1, 0].take 4)
      ([9, 8, 7, 6, 5, 4, 3, 2, 1, 0].drop 4) .ab =
      [9, 8, 7, 6, 5, 4, 3, 2, 1, 0] :=
  ⟨(resume_plan 4 10 true none "aaa" (by decide)).1,
   (resume_plan 4 10 true none "aaa" (by decide)).2
     [9, 8, 7, 6, 5, 4, 3, 2, 1, 0]⟩

/-- One selection step never removes an already-kept file. -/
theorem processFile_files_mono (inc exc : List String)
    (st : SelectionState) (x g : String) (hg : g ∈ st.files) :
    g ∈ (processFile inc exc st x).files := by
  simp only [processFile]
  split
  · simpa using Or.inl hg
  · split
    · simpa using Or.inl hg
    · exact hg

/-- Folding the selection step over more filenames never removes an
already-kept file. -/
theorem foldl_files_mono (inc exc : List String) :
    ∀ (l : List String) (st : SelectionState) (g : String),
      g ∈ st.files → g ∈ (l.foldl (processFile inc exc) st).files := by
  intro l
  induction l with
  | nil => intro st g hg; exact hg
  | cons x rest ih =>
    intro st g hg
    exact ih (processFile inc exc st x)
      g (processFile_files_mono inc exc st x g hg)

/-- An essential filename is appended by its own selection step,
whatever the patterns. -/
theorem processFile_essential (inc exc : List String)
    (st : SelectionState) (f : String) (hf : f ∈ essential_files) :
    f ∈ (processFile inc exc st f).files := by
  simp only [processFile]
  rw [if_pos (by simpa using hf)]
  simp

/-- C5. Each of the five essential filenames, whenever encountered by
the traversal, is selected for download regardless of the include and
exclude patterns. -/
theorem essential_always_selected (inc exc : List String)
    (filenames : List String) (f : String) (hf : f ∈ essential_files)
    (hmem : f ∈ filenames) :
    f ∈ (selectFiles inc exc filenames).files := by
  have haux : ∀ (l : List String) (st : SelectionState),
      f ∈ l → f ∈ (l.foldl (processFile inc exc) st).files := by
    intro l
    induction l with
    | nil => intro st hm; cases hm
    | cons x rest ih =>
      intro st hm
      rcases List.mem_cons.mp hm with hx | hrest
      · subst hx
        exact foldl_files_mono inc exc rest _ f
          (processFile_essential inc exc _ f hf)
      · exact ih (processFile inc exc st x) hrest
  exact haux filenames _ hmem

/-- Witness for C5: `README` is kept although the include list does not
match it and an exclude pattern matches it exactly. -/
theorem essential_always_selected_witness :
    "README" ∈ (selectFiles ["sub-01"] ["README"]
      ["README", "sub-01/a.nii"]).files :=
  essential_always_selected ["sub-01"] ["README"]
    ["README", "sub-01/a.nii"] "README" (by decide) (by decide)

/-- Counterexample for C6.  The include pattern `READ*` matches the
essential file `README` under the general match rule, yet the selection
loop does not credit it (`download.py` line 702 tests exact membership,
`filename in include`), so the include check aborts with the
pattern-matched-nothing error - where the claim says it must not. -/
theorem essential_glob_not_counted_cex :
    patternMatches "READ*" "README" = true ∧
    "README" ∈ essential_files ∧
    (selectFiles ["READ*"] [] ["README"]).include_counts = [0] ∧
    includeCheck (fun _ _ => []) ["READ*"]
      (selectFiles ["READ*"] [] ["README"]).include_counts ["README"] =
      some ("READ*", []) := by decide

/-- C6 as amended: when an essential filename is processed, an include
pattern is credited exactly when the pattern string *equals* the
filename (Python `filename in include`, crediting the first
occurrence); a pattern that matches an essential file only via prefix
or glob is not credited by that file. -/
theorem essential_count_exact_only (inc exc : List String)
    (st : SelectionState) (f : String) (hf : f ∈ essential_files) :
    (processFile inc exc st f).include_counts =
      (if f ∈ inc then bumpAt st.include_counts (inc.indexOf f)
       else st.include_counts) := by
  simp only [processFile]
  rw [if_pos (by simpa using hf)]
  by_cases hm : f ∈ inc
  · rw [if_pos hm, if_pos (by simpa using hm)]
  · rw [if_neg hm, if_neg (by simpa using hm)]

/-- Witness for C6's amended theorem: with include list `[READ*]`, the
essential file `README` credits no pattern. -/
theorem essential_count_exact_only_witness :
    (processFile ["READ*"] [] ⟨[], [0]⟩ "README").include_counts =
      (if "README" ∈ ["READ*"] then
        bumpAt [0] (["READ*"].indexOf "README")
       else [0]) :=
  essential_count_exact_only ["READ*"] [] ⟨[], [0]⟩ "README" (by decide)

theorem bumpAt_length (l : List Nat) (i : Nat) :
    (bumpAt l i).length = l.length := by
  induction l generalizing i with
  | nil => rfl
  | cons n rest ih =>
    cases i with
    | zero => rfl
    | succ j => simpa [bumpAt] using ih j

theorem bumpAt_getElem? (l : List Nat) (i j : Nat) :
    (bumpAt l i)[j]? = if i = j then l[j]?.map (· + 1) else l[j]? := by
  induction l generalizing i j with
  | nil => simp [bumpAt]
  | cons n rest ih =>
    cases i with
    | zero =>
      cases j with
      | zero => simp [bumpAt]
      | succ j2 => simp [bumpAt]
    | succ i2 =>
      cases j with
      | zero => simp [bumpAt]
      | succ j2 => simpa [bumpAt] using ih i2 j2

/-- Every pattern matches itself (via the prefix rule). -/
theorem patternMatches_refl (f : String) : patternMatches f f = true := by
  simp [patternMatches, List.isPrefixOf_iff_prefix]

/-- One selection step either leaves the counters unchanged, or bumps
the counter of an include pattern that matches the processed file. -/
theorem processFile_counts (inc exc : List String) (st : SelectionState)
    (f : String) :
    (processFile inc exc st f).include_counts = st.include_counts ∨
    ∃ idx pat, inc[idx]? = some pat ∧ patternMatches pat f = true ∧
      (processFile inc exc st f).include_counts =
        bumpAt st.include_counts idx := by
  simp only [processFile]
  split
  · split
    · right
      rename_i hcont
      have hmem : f ∈ inc := by simpa using hcont
      exact ⟨inc.indexOf f, f, List.getElem?_indexOf hmem,
        patternMatches_refl f, rfl⟩
    · left; rfl
  · split
    · split
      · right
        rename_i hany
        have htrue : true ∈ inc.map (fun i => patternMatches i f) := by
          simpa [List.any_eq_true, id] using hany
        have hidx := List.getElem?_indexOf htrue
        rw [List.getElem?_map] at hidx
        cases hp :
            inc[(inc.map (fun i => patternMatches i f)).indexOf true]? with
        | none => rw [hp] at hidx; simp at hidx
        | some pat =>
          rw [hp] at hidx
          simp at hidx
          exact ⟨_, pat, hp, hidx, rfl⟩
      · left; rfl
    · left; rfl

theorem processFile_counts_length (inc exc : List String)
    (st : SelectionState) (f : String) :
    (processFile inc exc st f).include_counts.length =
      st.include_counts.length := by
  rcases processFile_counts inc exc st f with h | ⟨idx, pat, _, _, h⟩
  · rw [h]
  · rw [h, bumpAt_length]

theorem selectFiles_counts_length (inc exc filenames : List String) :
    (selectFiles inc exc filenames).include_counts.length = inc.length := by
  unfold selectFiles
  have haux : ∀ (l : List String) (st : SelectionState),
      (l.foldl (processFile inc exc) st).include_counts.length =
        st.include_counts.length := by
    intro l
    induction l with
    | nil => intro st; rfl
    | cons x rest ih =>
      intro st
      rw [List.foldl_cons, ih, processFile_counts_length]
  rw [haux]
  simp

/-- A non-zero counter after the selection loop can only come from an
include pattern that matched one of the processed files (or from a
non-zero initial counter). -/
theorem foldl_counts_source (inc exc : List String) :
    ∀ (l : List String) (st : SelectionState) (idx c : Nat),
      ((l.foldl (processFile inc exc) st).include_counts)[idx]? =
          some c → c ≠ 0 →
      (∃ c0, st.include_counts[idx]? = some c0 ∧ c0 ≠ 0) ∨
      (∃ f ∈ l, ∃ pat, inc[idx]? = some pat ∧
        patternMatches pat f = true) := by
  intro l
  induction l with
  | nil => intro st idx c h hc; exact Or.inl ⟨c, h, hc⟩
  | cons x rest ih =>
    intro st idx c h hc
    rw [List.foldl_cons] at h
    rcases ih (processFile inc exc st x) idx c h hc with
      ⟨c0, hc0, hc0ne⟩ | ⟨f, hf, pat, hp, hm⟩
    · rcases processFile_counts inc exc st x with
        heq | ⟨idx2, pat2, hip, hpm, heq⟩
      · rw [heq] at hc0; exact Or.inl ⟨c0, hc0, hc0ne⟩
      · rw [heq, bumpAt_getElem?] at hc0
        by_cases hij : idx2 = idx
        · exact Or.inr ⟨x, List.mem_cons_self x rest, pat2,
            hij ▸ hip, hpm⟩
        · rw [if_neg hij] at hc0
          exact Or.inl ⟨c0, hc0, hc0ne⟩
    · exact Or.inr ⟨f, List.mem_cons_of_mem x hf, pat, hp, hm⟩

theorem zip_snd_forall (l1 : List String) (l2 : List Nat)
    (hlen : l2.length = l1.length) :
    (∀ pr ∈ l1.zip l2, pr.2 ≠ 0) ↔ ∀ c ∈ l2, c ≠ 0 := by
  constructor
  · intro h c hc
    obtain ⟨i, hi, hgi⟩ := List.mem_iff_getElem.mp hc
    have hz : i < (l1.zip l2).length := by
      simp [List.length_zip]
      omega
    have hil1 : i < l1.length := by omega
    have hmem : (l1.get ⟨i, hil1⟩, l2.get ⟨i, hi⟩) ∈ l1.zip l2 := by
      refine List.mem_iff_getElem.mpr ⟨i, hz, ?_⟩
      rw [List.getElem_zip]
      simp [List.get_eq_getElem]
    have := h _ hmem
    simpa [hgi, List.get_eq_getElem] using this
  · intro h pr hpr
    exact h pr.2 (List.of_mem_zip hpr).2

/-- Counterexample for C7.  With include list `[a, ab]` and the single
discovered path `abc`, *both* include patterns match the path under the
match rule, yet the run aborts with the include-pattern error naming
`ab`: only the first matching pattern of a kept path is credited
(`matches_keep.index(True)`, `download.py` line 715), so `ab` keeps a
zero counter.  The claim says no error may be raised when every pattern
matched at least one path. -/
theorem include_error_despite_match_cex :
    patternMatches "a" "abc" = true ∧
    patternMatches "ab" "abc" = true ∧
    (selectFiles ["a", "ab"] [] ["abc"]).files = ["abc"] ∧
    includeCheck (fun _ _ => []) ["a", "ab"]
      (selectFiles ["a", "ab"] [] ["abc"]).include_counts ["abc"] =
      some ("ab", []) := by decide

/-- C7 as amended: with a non-empty include list, the check passes iff
every include-pattern counter is non-zero, where a kept path credits
only the first include pattern matching it and an essential file
credits only a pattern equal to its name.  When the check passes, every
include pattern did match at least one encountered path; when it fails,
it names an include pattern with a zero counter, together with
close-match suggestions computed from the encountered paths (hence
drawn from them). -/
theorem include_check_iff_zero_credit
    (cm : String → List String → List String)
    (hcm : ∀ s l x, x ∈ cm s l → x ∈ l)
    (inc exc filenames : List String) (hne : inc ≠ []) :
    (includeCheck cm inc (selectFiles inc exc filenames).include_counts
        filenames = none ↔
      ∀ c ∈ (selectFiles inc exc filenames).include_counts, c ≠ 0) ∧
    (includeCheck cm inc (selectFiles inc exc filenames).include_counts
        filenames = none →
      ∀ (idx : Nat) (pat : String), inc[idx]? = some pat →
        ∃ f ∈ filenames, patternMatches pat f = true) ∧
    (∀ pat sugg,
      includeCheck cm inc (selectFiles inc exc filenames).include_counts
          filenames = some (pat, sugg) →
      pat ∈ inc ∧
        (pat, 0) ∈ inc.zip (selectFiles inc exc filenames).include_counts ∧
        sugg = cm pat filenames ∧ ∀ x ∈ sugg, x ∈ filenames) := by
  set counts := (selectFiles inc exc filenames).include_counts with hcounts
  have hlen : counts.length = inc.length := selectFiles_counts_length _ _ _
  have hemp : ¬ (inc.isEmpty = true) := by simpa using hne
  have hiff : includeCheck cm inc counts filenames = none ↔
      ∀ c ∈ counts, c ≠ 0 := by
    unfold includeCheck
    rw [if_neg hemp]
    cases hf : (inc.zip counts).find? (fun p => p.2 == 0) with
    | none =>
      simp only [true_iff]
      rw [← zip_snd_forall inc counts hlen]
      intro pr hpr
      have := List.find?_eq_none.mp hf pr hpr
      simpa using this
    | some pr =>
      cases pr with
      | mk p c =>
        simp only [reduceCtorEq, false_iff, not_forall]
        have hmem := List.mem_of_find?_eq_some hf
        have hzero : c = 0 := by simpa using List.find?_some hf
        refine ⟨c, (List.of_mem_zip hmem).2, by simpa using hzero⟩
  refine ⟨hiff, ?_, ?_⟩
  · intro hnone idx pat hip
    have hidx : idx < inc.length := by
      by_contra hge
      push_neg at hge
      rw [List.getElem?_eq_none hge] at hip
      cases hip
    have hclt : idx < counts.length := by omega
    have hcget : counts[idx]? = some (counts.get ⟨idx, hclt⟩) := by
      rw [List.get_eq_getElem]
      exact List.getElem?_eq_getElem hclt
    have hcne : counts.get ⟨idx, hclt⟩ ≠ 0 := by
      refine hiff.mp hnone _ ?_
      rw [List.get_eq_getElem]
      exact List.getElem_mem hclt
    rcases foldl_counts_source inc exc filenames
        ⟨[], List.replicate inc.length 0⟩ idx _ hcget hcne with
      ⟨c0, hc0, hc0ne⟩ | ⟨f, hfmem, pat2, hip2, hm2⟩
    · exfalso
      apply hc0ne
      simp only [List.getElem?_replicate] at hc0
      rw [if_pos hidx] at hc0
      cases hc0
      rfl
    · rw [hip] at hip2
      cases hip2
      exact ⟨f, hfmem, hm2⟩
  · intro pat sugg h
    unfold includeCheck at h
    rw [if_neg hemp] at h
    cases hf : (inc.zip counts).find? (fun p => p.2 == 0) with
    | none => rw [hf] at h; cases h
    | some pr =>
      rw [hf] at h
      cases pr with
      | mk p c =>
        simp only [Option.some.injEq, Prod.mk.injEq] at h
        obtain ⟨hp, hs⟩ := h
        subst hp
        have hmem := List.mem_of_find?_eq_some hf
        have hzero : c = 0 := by simpa using List.find?_some hf
        subst hzero
        exact ⟨(List.of_mem_zip hmem).1, hmem, hs.symm,
          fun x hx => hcm p filenames x (hs ▸ hx)⟩

/-- Witness for C7's amended theorem: with include `[CHANGES]` over the
single path `CHANGES`, the check passes. -/
theorem include_check_iff_zero_credit_witness :
    includeCheck (fun _ _ => []) ["CHANGES"]
      (selectFiles ["CHANGES"] [] ["CHANGES"]).include_counts
      ["CHANGES"] = none :=
  (include_check_iff_zero_credit (fun _ _ => [])
      (fun _ _ _ h => by cases h) ["CHANGES"] [] ["CHANGES"]
      (by decide)).1.mpr (by decide)

theorem filesOf_filterMap (root : String) (entries : List RTree) :
    filesOf root entries = entries.filterMap
      (fun e => match e with
        | .file n => some (childPath root n)
        | .dir _ _ => none) := by
  induction entries with
  | nil => rfl
  | cons e rest ih =>
    cases e with
    | file n => simp [filesOf, List.filterMap_cons, ih]
    | dir n cs => simp [filesOf, List.filterMap_cons, ih]

theorem dirsOf_filterMap (root : String) (entries : List RTree) :
    dirsOf root entries = entries.filterMap
      (fun e => match e with
        | .file _ => none
        | .dir n cs => some (childPath root n, cs)) := by
  induction entries with
  | nil => rfl
  | cons e rest ih =>
    cases e with
    | file n => simp [dirsOf, List.filterMap_cons, ih]
    | dir n cs => simp [dirsOf, List.filterMap_cons, ih]

theorem expandDirs_eq_flatMap (root : String) (entries : List RTree) :
    expandDirs root entries =
      (dirsOf root entries).flatMap
        (fun d => iterate_filenames d.1 d.2) := by
  induction entries with
  | nil => simp [expandDirs, dirsOf]
  | cons e rest ih =>
    cases e with
    | file n => simpa [expandDirs, dirsOf] using ih
    | dir n cs => simp [expandDirs, dirsOf, ih]

/-- The traversal yields exactly the file-node paths of the forest (so
in particular no directory entries). -/
theorem mem_iterate_iff (root : String) (entries : List RTree)
    (p : String) :
    p ∈ iterate_filenames root entries ↔
      p ∈ forestFilePaths root entries := by
  match entries with
  | [] => simp [iterate_filenames, expandDirs, filesOf, forestFilePaths]
  | .file n :: rest =>
    have ih := mem_iterate_iff root rest p
    rw [show iterate_filenames root (.file n :: rest) =
        childPath root n :: iterate_filenames root rest from by
      simp [iterate_filenames, filesOf, expandDirs]]
    rw [show forestFilePaths root (.file n :: rest) =
        childPath root n :: forestFilePaths root rest from by
      simp [forestFilePaths, treeFilePaths]]
    simp [ih]
  | .dir n cs :: rest =>
    have ih1 := mem_iterate_iff (childPath root n) cs p
    have ih2 := mem_iterate_iff root rest p
    simp only [iterate_filenames, filesOf, expandDirs, forestFilePaths,
      treeFilePaths, List.mem_append, List.mem_cons] at ih1 ih2 ⊢
    tauto
termination_by sizeOf entries

/-- C9.  For every listing processed by the traversal: the yielded path
of each child is the parent path, `/`, and the child's name (bare name
at the dataset root); all file entries of the listing are yielded, in
listing order, before any content of the listing's subdirectories,
which are expanded in listing order; and the resulting sequence
contains exactly the file-node paths of the tree (in particular, no
directory entries). -/
theorem traversal_structure (root : String) (entries : List RTree) :
    iterate_filenames root entries =
      filesOf root entries ++
        (dirsOf root entries).flatMap
          (fun d => iterate_filenames d.1 d.2) ∧
    filesOf root entries = entries.filterMap
      (fun e => match e with
        | .file n => some (childPath root n)
        | .dir _ _ => none) ∧
    dirsOf root entries = entries.filterMap
      (fun e => match e with
        | .file _ => none
        | .dir n cs => some (childPath root n, cs)) ∧
    (∀ name, childPath root name =
      (if root = "" then name else root ++ "/" ++ name)) ∧
    (∀ p, p ∈ iterate_filenames root entries ↔
      p ∈ forestFilePaths root entries) := by
  refine ⟨?_, filesOf_filterMap root entries, dirsOf_filterMap root entries,
    fun _ => rfl, fun p => mem_iterate_iff root entries p⟩
  rw [iterate_filenames, expandDirs_eq_flatMap]

/-- Witness for C9 at a concrete two-level listing. -/
theorem traversal_structure_witness :
    iterate_filenames ""
      [RTree.file "README",
       RTree.dir "sub-01" [RTree.file "a.nii"]] =
      filesOf "" [RTree.file "README",
        RTree.dir "sub-01" [RTree.file "a.nii"]] ++
        (dirsOf "" [RTree.file "README",
          RTree.dir "sub-01" [RTree.file "a.nii"]]).flatMap
          (fun d => iterate_filenames d.1 d.2) :=
  (traversal_structure ""
    [RTree.file "README", RTree.dir "sub-01" [RTree.file "a.nii"]]).1

/-- Whatever happens after the revision check, the body of `download`
keeps the earlier steps as a prefix and ends in either the
include-pattern error or a completed run. -/
theorem downloadBody_shape (cm : String → List String → List String)
    (env : DownloadEnv) (inc exc : List String) (steps0 : List Step) :
    ∃ tail outcome,
      downloadBody cm env inc exc steps0 = (steps0 ++ tail, outcome) ∧
      ((∃ pat sugg, outcome = .include_error pat sugg) ∨
        (∃ fs, outcome = .completed fs)) := by
  simp only [downloadBody]
  cases hck : includeCheck cm inc
      (selectFiles inc exc
        (iterate_filenames "" env.remote_files)).include_counts
      (iterate_filenames "" env.remote_files) with
  | none =>
    refine ⟨[Step.traverse_listing] ++
      (selectFiles inc exc
        (iterate_filenames "" env.remote_files)).files.flatMap
        (fun f => [Step.mkdir_parent f, Step.transfer f]),
      Outcome.completed (selectFiles inc exc
        (iterate_filenames "" env.remote_files)).files, ?_,
      Or.inr ⟨_, rfl⟩⟩
    rw [← List.append_assoc]
  | some pr =>
    cases pr with
    | mk pat sugg =>
      exact ⟨[Step.traverse_listing], _, rfl, Or.inl ⟨pat, sugg, rfl⟩⟩

/-- C8.  When the target directory exists, is non-empty, and the
locally recorded revision is known and differs from the effective
remote revision, `download` stops with the revision-conflict error
right after the metadata fetch: no directory is created, no file is
transferred, modified or deleted. -/
theorem revision_conflict_before_writes
    (cm : String → List String → List String) (env : DownloadEnv)
    (inc exc : List String) (local_tag : String)
    (h1 : env.target_dir_exists = true)
    (h2 : env.target_dir_nonempty = true)
    (h3 : get_local_tag env.dataset env.manifest = .ok (some local_tag))
    (h4 : local_tag ≠ effectiveTag env) :
    downloadRun cm env inc exc =
      ([.fetch_metadata], .revision_conflict local_tag
        (effectiveTag env)) ∧
    ∀ s ∈ (downloadRun cm env inc exc).1,
      (∀ p, s ≠ Step.mkdir_parent p) ∧ (∀ p, s ≠ Step.transfer p) := by
  have hrun : downloadRun cm env inc exc =
      ([.fetch_metadata], .revision_conflict local_tag
        (effectiveTag env)) := by
    unfold downloadRun
    rw [if_pos (by rw [h1, h2]; rfl), h3]
    exact if_pos h4
  refine ⟨hrun, ?_⟩
  rw [hrun]
  intro s hs
  simp only [List.mem_singleton] at hs
  subst hs
  refine ⟨?_, ?_⟩
  · intro p hp; cases hp
  · intro p hp; cases hp

/-- A concrete environment for the C8 witness: revision `1.0.0` is
recorded locally, revision `00001` is requested. -/
def envConflict : DownloadEnv :=
  { dataset := "ds000246", meta_id := "ds000246:00001",
    remote_files := [], target_dir_exists := true,
    target_dir_nonempty := true,
    manifest := .parsed
      [("DatasetDOI", "10.18112/openneuro.ds000246.v1.0.0")] }

/-- Witness for C8 at the concrete environment. -/
theorem revision_conflict_before_writes_witness :
    downloadRun (fun _ _ => []) envConflict [] [] =
      ([.fetch_metadata],
        .revision_conflict "1.0.0" (effectiveTag envConflict)) :=
  (revision_conflict_before_writes (fun _ _ => []) envConflict [] []
    "1.0.0" rfl rfl (by decide) (by decide)).1

/-- Counterexample for C10.  A present, non-empty but unparseable
`dataset_description.json` makes the probe raise (the `json.loads` call
at `download.py` line 501) and the run fail - an error cause the
claim's "only ..." clause does not list. -/
theorem unparseable_manifest_raises_cex :
    get_local_tag "ds000248" .unparseable = .error .jsonParseError ∧
    downloadRun (fun _ _ => [])
      { dataset := "ds000248", meta_id := "ds000248:1.0.0",
        remote_files := [], target_dir_exists := true,
        target_dir_nonempty := true, manifest := .unparseable } [] [] =
      ([.fetch_metadata], .local_state_error .jsonParseError) := by
  constructor
  · rfl
  · rfl

/-- C10 as amended: the probe returns no tag (without raising) iff the
manifest is absent or empty, in which case a download into a non-empty
existing directory proceeds past the revision check with a warning and
can no longer fail with a revision conflict or a local-state error; a
present, non-empty manifest causes an error exactly when it is
unparseable, or parses without a `DatasetDOI` field, or carries a DOI
that does not name the requested dataset. -/
theorem local_probe_characterization (id : String) (m : ManifestFile)
    (cm : String → List String → List String) (env : DownloadEnv)
    (inc exc : List String) :
    ((m = .absent ∨ m = .emptyContent) → get_local_tag id m = .ok none) ∧
    ((∃ e, get_local_tag id m = .error e) ↔
      (m = .unparseable ∨
        (∃ fields, m = .parsed fields ∧
          fields.lookup "DatasetDOI" = none) ∨
        (∃ fields doi0, m = .parsed fields ∧
          fields.lookup "DatasetDOI" = some doi0 ∧
          strStartsWith
            (if strStartsWith doi0 "doi:" then strDrop doi0 4 else doi0)
            (doiStart id) = false))) ∧
    (env.target_dir_exists = true → env.target_dir_nonempty = true →
      (env.manifest = .absent ∨ env.manifest = .emptyContent) →
      Step.warn_unknown_local_revision ∈ (downloadRun cm env inc exc).1 ∧
        (∀ lt t, (downloadRun cm env inc exc).2 ≠
          .revision_conflict lt t) ∧
        (∀ e, (downloadRun cm env inc exc).2 ≠ .local_state_error e)) := by
  refine ⟨?_, ?_, ?_⟩
  · rintro (hm | hm) <;> subst hm <;> rfl
  · constructor
    · rintro ⟨e, he⟩
      cases m with
      | absent => cases he
      | emptyContent => cases he
      | unparseable => exact Or.inl rfl
      | parsed fields =>
        cases hlk : fields.lookup "DatasetDOI" with
        | none => exact Or.inr (Or.inl ⟨fields, rfl, hlk⟩)
        | some doi0 =>
          refine Or.inr (Or.inr ⟨fields, doi0, rfl, hlk, ?_⟩)
          simp only [get_local_tag, hlk] at he
          by_cases hsw : strStartsWith
              (if strStartsWith doi0 "doi:" then strDrop doi0 4 else doi0)
              (doiStart id) = true
          · rw [if_pos hsw] at he
            cases he
          · simpa using hsw
    · rintro (hm | ⟨fields, hm, hl⟩ | ⟨fields, doi0, hm, hl, hsw⟩)
      · subst hm; exact ⟨.jsonParseError, rfl⟩
      · subst hm
        exact ⟨.missingDatasetDOI, by simp [get_local_tag, hl]⟩
      · subst hm
        exact ⟨.datasetMismatch, by simp [get_local_tag, hl, hsw]⟩
  · intro h1 h2 hm
    have hok : get_local_tag env.dataset env.manifest = .ok none := by
      rcases hm with hm | hm <;> rw [hm] <;> rfl
    have hrun : downloadRun cm env inc exc =
        downloadBody cm env inc exc
          [.fetch_metadata, .warn_unknown_local_revision] := by
      unfold downloadRun
      rw [if_pos (by rw [h1, h2]; rfl), hok]
    obtain ⟨tail, outcome, hbody, houtcome⟩ :=
      downloadBody_shape cm env inc exc
        [.fetch_metadata, .warn_unknown_local_revision]
    rw [hrun, hbody]
    refine ⟨by simp, ?_, ?_⟩
    · intro lt t
      rcases houtcome with ⟨pat, sugg, ho⟩ | ⟨fs, ho⟩ <;>
        simp [ho]
    · intro e
      rcases houtcome with ⟨pat, sugg, ho⟩ | ⟨fs, ho⟩ <;>
        simp [ho]

/-- Witness for C10's amended theorem: an absent manifest yields no tag
and no error. -/
theorem local_probe_characterization_witness :
    get_local_tag "ds000248" .absent = .ok none :=
  (local_probe_characterization "ds000248" .absent (fun _ _ => [])
      { dataset := "ds000248", meta_id := "ds000248:1.0.0",
        remote_files := [], target_dir_exists := true,
        target_dir_nonempty := true, manifest := .absent } [] []).1
    (Or.inl rfl)

/-- C2, evaluated at the failing input (limit 1, retry budget 5, one
file whose HEAD request fails once with a retryable error, then
succeeds).  The trace shows the bug twice over: the backoff `sleep`
happens while the slot is still held (`_retry_download` releases only
*after* `asyncio.sleep`, `download.py` lines 383-386), and the trace
releases the semaphore once more than it acquires it (the explicit
`semaphore.release()` plus the release by the suspended
`async with semaphore` block exiting, line 242 and 386), so the
counter ends one above its initial value and later permits
`max_concurrent_downloads + 1` simultaneous transfers. -/
theorem retry_holds_slot_and_leaks_semaphore :
    downloadEvents 5 [.headFail, .getOk none] =
      [.acquire, .headReq, .sleep, .release,
       .acquire, .headReq, .release, .acquire, .getReq none, .release,
       .release] ∧
    (downloadEvents 5 [.headFail, .getOk none]).take 3 =
      [.acquire, .headReq, .sleep] ∧
    slotsHeld ((downloadEvents 5 [.headFail, .getOk none]).take 3) = 1 ∧
    (downloadEvents 5 [.headFail, .getOk none]).count .release =
      (downloadEvents 5 [.headFail, .getOk none]).count .acquire + 1 := by
  decide

end OpenneuroPy
